import Mathlib

/-!
# Verification of the `dune_mods` inventory pipeline

Shallow embedding of `src/inventory_app` (the image tiler, the OCR
pre-screen, the per-tile LLM extraction loop and the CSV store) together
with proofs of the specification claims about them.

Modelling conventions:
* A CSV file is modelled at row granularity: `Row := List String` is one
  record as the `csv` module reads/writes it, `CsvFile := List Row` is the
  file's content, and `Option CsvFile` is a path's state (`none` = the
  file does not exist).  Quoting/escaping performed by Python's `csv`
  module is below this level of abstraction: `csv.writer` followed by
  `csv.reader` round-trips rows, which is all the code relies on.
* `datetime.now().isoformat(timespec="seconds")` is an effect; the
  timestamp is passed as an explicit `String` parameter.  Later wall-clock
  times yield lexicographically larger ISO strings, so "newer" is `<` on
  `String`.
* Python dictionaries are association lists with unique keys:
  `insertReplace` replaces the first binding in place (keeping insertion
  order) or appends a fresh binding at the end, exactly like `d[k] = v`.
* Python's `str.strip` is `pyStrip` (drop Unicode whitespace at both
  ends; modelled with `Char.isWhitespace`), and `str.isalnum` is
  `Char.isAlphanum`; both agree with Python on the ASCII range the
  application manipulates.
* Fallible external calls (Tesseract, the HTTP endpoint) are passed in as
  explicit outcome values, so the error-handling branches of the code are
  ordinary pattern matches.
-/

/-- One CSV record, as the `csv` module reads or writes it. -/
abbrev Row := List String

/-- The content of the store file: its rows in order (header included). -/
abbrev CsvFile := List Row

/-- A count field of an item dictionary: the key can be missing, bound to
`None`, or bound to an integer. -/
inductive CountField where
  | absent
  | null
  | val (n : Int)
deriving DecidableEq

/-- Count serialisation, `str(item.get(key, ""))` in `update_inventory_csv`: a missing key
serialises to `""`, Python's `None` to the string `"None"`, and an
integer to its decimal representation. -/
def CountField.serialize : CountField → String
  | .absent => ""
  | .null => "None"
  | .val n => toString n

/-- The item dictionary produced per tile by `call_llm_api` and consumed
by `update_inventory_csv` (spec §3 calls it `ExtractedItem`). A missing
`item_name` key reads as `""` via `item.get("item_name", "")`. -/
structure ExtractedItem where
  item_name : String
  available_count : CountField
  required_count : CountField
deriving DecidableEq

/-- Whitespace test used by Python's `str.strip`. -/
def isSpace (c : Char) : Bool := c.isWhitespace

/-- Python `str.strip` on a character list: drop whitespace from both
ends. -/
def trimChars (l : List Char) : List Char :=
  (l.dropWhile isSpace).rdropWhile isSpace

/-- Python `str.strip`. -/
def pyStrip (s : String) : String := String.mk (trimChars s.data)

/-- Python `ch.isalnum()` (ASCII fragment). -/
def isAlnum (c : Char) : Bool := c.isAlphanum

/-! ## `image_handler.py` -/

/-- One tile produced by `split_image_into_subimages`: the crop box
`(left, top, left + width, top + height)` of the source image, recorded
as origin and size. -/
structure SubImage where
  left : Nat
  top : Nat
  width : Nat
  height : Nat
deriving DecidableEq

/-- The tiler, `split_image_into_subimages(img)`: split a `width × height` image
into a 4×2 grid (4 columns, 2 rows), row-major.  Tile sizes are the
floored quotients, so remainder pixels at the right/bottom edges are
dropped.  `img.crop` never fails, also on a zero-width/height box. -/
def split_image_into_subimages (width height : Nat) : List SubImage :=
  let cols := 4
  let rows := 2
  let subimage_width := width / cols
  let subimage_height := height / rows
  ((List.range rows).map (fun row =>
    (List.range cols).map (fun col =>
      { left := col * subimage_width
        top := row * subimage_height
        width := subimage_width
        height := subimage_height }))).flatten

/-- The prescreener test, `image_has_text(img)`: the OCR pass is abstracted as its outcome,
`some text` for a successful `pytesseract.image_to_string` (on the
grayscale conversion) and `none` when the detection pass raised.  On
success the text is stripped and scanned for an alphanumeric character;
on failure the function returns `true` (fail open, keep the tile). -/
def image_has_text (ocr : Option (List Char)) : Bool :=
  match ocr with
  | some text => (trimChars text).any isAlnum
  | none => true

/-- The prescreener filter, `pre_screen_subimages(subimages)`: keep, in order, the tiles whose
`image_has_text` outcome is true.  Each tile is paired with the outcome
of its OCR pass. -/
def pre_screen_subimages {α : Type} (subimages : List (α × Option (List Char))) : List α :=
  subimages.foldl
    (fun screened t => if image_has_text t.2 then screened ++ [t.1] else screened) []

/-! ## `llm_client.py` -/

/-- The outcome of one `requests.post` round-trip for one tile:
either the parsed per-tile record, or one of the failure modes the
`except` clause of `call_llm_api` catches. -/
inductive LlmCallResult where
  | ok (item : ExtractedItem)
  | transportFailure
  | httpErrorStatus
  | parseFailure
deriving DecidableEq

/-- The fallback record appended by `call_llm_api` when the call for a
tile fails. -/
def errorFallbackItem : ExtractedItem :=
  { item_name := "ERROR", available_count := CountField.null,
    required_count := CountField.null }

/-- The extractor loop, `call_llm_api(images)`: one synchronous call per tile, in order; the
per-tile network/parse behaviour is abstracted as the list of outcomes,
aligned with the tile list.  A failing call appends `errorFallbackItem`
and the loop continues. -/
def call_llm_api (calls : List LlmCallResult) : List ExtractedItem :=
  calls.foldl
    (fun results r =>
      results ++ [match r with
        | .ok item => item
        | .transportFailure => errorFallbackItem
        | .httpErrorStatus => errorFallbackItem
        | .parseFailure => errorFallbackItem]) []

/-! ## `csv_handler.py` -/

/-- The canonical header (`config.CSV_HEADER`). -/
def CSV_HEADER : Row := ["timestamp", "item_name", "available_count", "required_count"]

/-- Store creation, `ensure_csv_header(path)`: create the file with just the header when
it does not exist; otherwise leave the file untouched (a differing header
only produces a warning). -/
def ensure_csv_header (store : Option CsvFile) : Option CsvFile :=
  match store with
  | none => some [CSV_HEADER]
  | some file => some file

/-- A Python dict keyed by item name: an association list with unique
keys in insertion order. -/
abbrev DataMap := List (String × Row)

/-- Assignment `d[k] = v` on a Python dict: replace the first binding of `k` in
place, or append a fresh binding at the end. -/
def insertReplace : DataMap → String → Row → DataMap
  | [], k, v => [(k, v)]
  | p :: rest, k, v =>
    if p.1 = k then (k, v) :: rest else p :: insertReplace rest k v

/-- The body of the row loop of `read_csv_data`: a row with at least two
fields whose stripped name is neither empty, `"NONE"` nor `"ERROR"` is
keyed by that stripped name (`data[item_name] = row`); other rows are
ignored. -/
def read_row_step (data : DataMap) (row : Row) : DataMap :=
  if 2 ≤ row.length then
    let item_name := pyStrip (row.getD 1 "")
    if item_name ≠ "" ∧ item_name ≠ "NONE" ∧ item_name ≠ "ERROR" then
      insertReplace data item_name row
    else data
  else data

/-- Store loading, `read_csv_data(path)`: missing file or non-canonical header yields an
empty mapping; otherwise the rows after the header are folded through
`read_row_step`, the later row in file order winning per name. -/
def read_csv_data (store : Option CsvFile) : DataMap :=
  match store with
  | none => []
  | some file =>
    match file with
    | [] => []
    | header :: rows =>
      if header = CSV_HEADER then rows.foldl read_row_step []
      else []

/-- Insert one binding into a key-sorted association list. -/
def insertSorted (q : String × Row) : DataMap → DataMap
  | [] => [q]
  | p :: rest => if q.1 ≤ p.1 then q :: p :: rest else p :: insertSorted q rest

/-- Key sorting, `sorted(existing_data.keys())` (with the value rows carried along):
sort the bindings by key, ascending. -/
def sortByKey : DataMap → DataMap
  | [] => []
  | p :: rest => insertSorted p (sortByKey rest)

/-- The body of the item loop of `update_inventory_csv`: skip an item
whose stripped name is empty, `"NONE"` or `"ERROR"`; otherwise overwrite
the mapping entry for that name with a fresh
`[timestamp, item_name, available, required]` row. -/
def upsert_item_step (timestamp : String) (data : DataMap)
    (item : ExtractedItem) : DataMap :=
  let item_name := pyStrip item.item_name
  if item_name = "" ∨ item_name = "NONE" ∨ item_name = "ERROR" then data
  else
    insertReplace data item_name
      [timestamp, item_name, item.available_count.serialize,
       item.required_count.serialize]

/-- The upsert, `update_inventory_csv(items, path)`: no-op for an empty batch;
otherwise ensure the file, load the existing mapping, fold the batch in
through `upsert_item_step` and rewrite the file as the canonical header
followed by the rows sorted by name.  The `updated`/`added` counters of
the source only feed log lines and are not part of the file state. -/
def update_inventory_csv (items : List ExtractedItem) (timestamp : String)
    (store : Option CsvFile) : Option CsvFile :=
  if items = [] then store
  else
    let existing_data := read_csv_data (ensure_csv_header store)
    let final := items.foldl (upsert_item_step timestamp) existing_data
    some (CSV_HEADER :: (sortByKey final).map (fun p => p.2))

/-- One filesystem operation performed by `update_inventory_csv`. -/
inductive FsOp where
  | createWithHeader
  | readHeaderLine
  | readAll
  | writeAll
deriving DecidableEq

/-- The trace of filesystem operations `update_inventory_csv` performs:
nothing for an empty batch; otherwise `ensure_csv_header` either creates
the file (absent) or reads its first line (present), then
`read_csv_data` reads the whole file and the final rewrite writes it. -/
def update_inventory_csv_fsOps (items : List ExtractedItem)
    (store : Option CsvFile) : List FsOp :=
  if items = [] then []
  else
    (match store with
     | none => [FsOp.createWithHeader]
     | some _ => [FsOp.readHeaderLine]) ++ [FsOp.readAll, FsOp.writeAll]

/-! ## Invariants used by the proofs -/

/-- The keys of a mapping, in insertion order (`d.keys()`). -/
def keys (m : DataMap) : List String := m.map (fun p => p.1)

/-- The shape every binding of the store mapping has: the row has at
least two fields, its stripped name field is exactly the key, and the
key is not a sentinel name. -/
def RowOK (k : String) (r : Row) : Prop :=
  2 ≤ r.length ∧ pyStrip (r.getD 1 "") = k ∧
    k ≠ "" ∧ k ≠ "NONE" ∧ k ≠ "ERROR"

/-- Well-formed store mapping: unique keys, every binding `RowOK`. -/
def WFMap (m : DataMap) : Prop :=
  (keys m).Nodup ∧ ∀ q ∈ m, RowOK q.1 q.2

/-! ## Lemmas about stripping -/

theorem dropWhile_eq_self_of_front {α : Type} {p : α → Bool} {l m : List α}
    (hpre : m <+: l) (hl : l.dropWhile p = l) : m.dropWhile p = m := by
  rw [List.dropWhile_eq_self_iff] at hl ⊢
  intro h0
  obtain ⟨t, rfl⟩ := hpre
  have hl0 : 0 < (m ++ t).length := by
    rw [List.length_append]; omega
  have hfirst := hl hl0
  have hget : (m ++ t).get ⟨0, hl0⟩ = m.get ⟨0, h0⟩ := by
    simp [List.getElem_append_left h0]
  rwa [hget] at hfirst

theorem trimChars_idem (l : List Char) : trimChars (trimChars l) = trimChars l := by
  unfold trimChars
  have h1 : (l.dropWhile isSpace).dropWhile isSpace = l.dropWhile isSpace :=
    List.dropWhile_idempotent _ _
  have h2 : (l.dropWhile isSpace).rdropWhile isSpace <+: l.dropWhile isSpace :=
    List.rdropWhile_prefix _ _
  rw [dropWhile_eq_self_of_front h2 h1, List.rdropWhile_idempotent]

theorem pyStrip_idem (s : String) : pyStrip (pyStrip s) = pyStrip s := by
  unfold pyStrip
  exact congrArg String.mk (trimChars_idem s.data)

theorem mem_of_mem_trimChars {c : Char} {l : List Char} (h : c ∈ trimChars l) : c ∈ l := by
  unfold trimChars at h
  have hpre := List.rdropWhile_prefix isSpace (l.dropWhile isSpace)
  have h1 : c ∈ l.dropWhile isSpace := (hpre.sublist).mem h
  exact ((List.dropWhile_suffix isSpace).sublist).mem h1

theorem mem_dropWhile_of_neg {α : Type} {p : α → Bool} {c : α} {l : List α}
    (hc : p c = false) (h : c ∈ l) : c ∈ l.dropWhile p := by
  induction l with
  | nil => cases h
  | cons a l ih =>
    by_cases ha : p a
    · rw [List.dropWhile_cons_of_pos ha]
      rcases List.mem_cons.mp h with rfl | h2
      · rw [hc] at ha; cases ha
      · exact ih h2
    · rw [List.dropWhile_cons_of_neg ha]
      exact h

theorem mem_trimChars_of_neg {c : Char} {l : List Char}
    (hc : isSpace c = false) (h : c ∈ l) : c ∈ trimChars l := by
  unfold trimChars
  rw [List.rdropWhile, List.mem_reverse]
  exact mem_dropWhile_of_neg hc
    (List.mem_reverse.mpr (mem_dropWhile_of_neg hc h))

theorem not_alnum_of_space {c : Char} (h : isSpace c = true) : isAlnum c = false := by
  revert h
  simp only [isSpace, Char.isWhitespace, Bool.or_eq_true, decide_eq_true_eq]
  rintro (((rfl | rfl) | rfl) | rfl) <;> decide

/-! ## Lemmas about the extractor loop -/

theorem foldl_append_eq_map {α β : Type} (g : α → β) (l : List α) (acc : List β) :
    l.foldl (fun res r => res ++ [g r]) acc = acc ++ l.map g := by
  induction l generalizing acc with
  | nil => simp
  | cons a l ih => simp [ih]

/-- The per-tile sum over outcomes that `call_llm_api` computes. -/
theorem call_llm_api_eq_map (calls : List LlmCallResult) :
    call_llm_api calls = calls.map
      (fun r => match r with
        | .ok item => item
        | .transportFailure => errorFallbackItem
        | .httpErrorStatus => errorFallbackItem
        | .parseFailure => errorFallbackItem) := by
  unfold call_llm_api
  exact (foldl_append_eq_map _ calls []).trans (List.nil_append _)

/-! ## Lemmas about the prescreener loop -/

theorem mem_foldl_screen_of_mem {α : Type} (l : List (α × Option (List Char)))
    (acc : List α) (img : α) (h : img ∈ acc) :
    img ∈ l.foldl
      (fun screened t => if image_has_text t.2 then screened ++ [t.1] else screened) acc := by
  induction l generalizing acc with
  | nil => exact h
  | cons a l ih =>
    simp only [List.foldl_cons]
    by_cases hT : image_has_text a.2
    · rw [if_pos hT]
      exact ih _ (List.mem_append_left _ h)
    · rw [if_neg hT]
      exact ih _ h

theorem mem_foldl_screen_of_mem_tiles {α : Type} (l : List (α × Option (List Char)))
    (acc : List α) (img : α) (o : Option (List Char))
    (ho : image_has_text o = true) (h : (img, o) ∈ l) :
    img ∈ l.foldl
      (fun screened t => if image_has_text t.2 then screened ++ [t.1] else screened) acc := by
  induction l generalizing acc with
  | nil => cases h
  | cons a l ih =>
    simp only [List.foldl_cons]
    rcases List.mem_cons.mp h with heq | h2
    · rw [← heq]
      simp only [ho, if_pos]
      exact mem_foldl_screen_of_mem l _ img
        (List.mem_append_right _ (List.mem_singleton.mpr rfl))
    · by_cases hT : image_has_text a.2
      · rw [if_pos hT]
        exact ih _ h2
      · rw [if_neg hT]
        exact ih _ h2

theorem mem_pre_screen_of_kept {α : Type} (tiles : List (α × Option (List Char)))
    (img : α) (o : Option (List Char)) (ho : image_has_text o = true)
    (h : (img, o) ∈ tiles) : img ∈ pre_screen_subimages tiles := by
  unfold pre_screen_subimages
  exact mem_foldl_screen_of_mem_tiles tiles [] img o ho h

/-! ## Lemmas about the store mapping -/

theorem keys_cons (p : String × Row) (rest : DataMap) :
    keys (p :: rest) = p.1 :: keys rest := rfl

theorem keys_append (m1 m2 : DataMap) : keys (m1 ++ m2) = keys m1 ++ keys m2 :=
  List.map_append _ m1 m2

theorem mem_keys_of_mem {q : String × Row} {m : DataMap} (h : q ∈ m) : q.1 ∈ keys m :=
  List.mem_map_of_mem _ h

theorem keys_insertReplace_of_mem {m : DataMap} {k : String} (v : Row)
    (h : k ∈ keys m) : keys (insertReplace m k v) = keys m := by
  induction m with
  | nil => cases h
  | cons p rest ih =>
    by_cases hp : p.1 = k
    · simp [insertReplace, hp, keys_cons]
    · have h2 : k ∈ keys rest := by
        rcases List.mem_cons.mp h with he | h2
        · exact absurd he.symm hp
        · exact h2
      simp only [insertReplace, if_neg hp, keys_cons, ih h2]

theorem insertReplace_of_not_mem {m : DataMap} {k : String} (v : Row)
    (h : k ∉ keys m) : insertReplace m k v = m ++ [(k, v)] := by
  induction m with
  | nil => rfl
  | cons p rest ih =>
    have hp : p.1 ≠ k := fun he => h (by rw [keys_cons, he]; exact List.mem_cons_self _ _)
    have h2 : k ∉ keys rest := fun hk => h (by rw [keys_cons]; exact List.mem_cons_of_mem _ hk)
    simp only [insertReplace, if_neg hp, List.cons_append, ih h2]

theorem mem_insertReplace_self (m : DataMap) (k : String) (v : Row) :
    (k, v) ∈ insertReplace m k v := by
  induction m with
  | nil => exact List.mem_singleton.mpr rfl
  | cons p rest ih =>
    by_cases hp : p.1 = k
    · simp only [insertReplace, if_pos hp]
      exact List.mem_cons_self _ _
    · simp only [insertReplace, if_neg hp]
      exact List.mem_cons_of_mem _ ih

theorem mem_insertReplace {m : DataMap} {k : String} {v : Row} {q : String × Row}
    (h : q ∈ insertReplace m k v) : q = (k, v) ∨ q ∈ m := by
  induction m with
  | nil => exact Or.inl (List.mem_singleton.mp h)
  | cons p rest ih =>
    by_cases hp : p.1 = k
    · simp only [insertReplace, if_pos hp] at h
      rcases List.mem_cons.mp h with he | h2
      · exact Or.inl he
      · exact Or.inr (List.mem_cons_of_mem _ h2)
    · simp only [insertReplace, if_neg hp] at h
      rcases List.mem_cons.mp h with he | h2
      · exact Or.inr (he ▸ List.mem_cons_self _ _)
      · rcases ih h2 with he | h3
        · exact Or.inl he
        · exact Or.inr (List.mem_cons_of_mem _ h3)

theorem length_insertReplace_of_mem {m : DataMap} {k : String} (v : Row)
    (h : k ∈ keys m) : (insertReplace m k v).length = m.length := by
  induction m with
  | nil => cases h
  | cons p rest ih =>
    by_cases hp : p.1 = k
    · simp only [insertReplace, if_pos hp, List.length_cons]
    · have h2 : k ∈ keys rest := by
        rcases List.mem_cons.mp h with he | h2
        · exact absurd he.symm hp
        · exact h2
      simp only [insertReplace, if_neg hp, List.length_cons, ih h2]

theorem nodup_keys_insertReplace {m : DataMap} {k : String} (v : Row)
    (h : (keys m).Nodup) : (keys (insertReplace m k v)).Nodup := by
  by_cases hk : k ∈ keys m
  · rw [keys_insertReplace_of_mem v hk]
    exact h
  · rw [insertReplace_of_not_mem v hk, keys_append]
    simp only [List.nodup_append, keys, List.map_singleton, List.nodup_cons,
      List.not_mem_nil, not_false_iff, List.nodup_nil, and_true, true_and]
    constructor
    · exact h
    · intro a ha hb
      exact hk (List.mem_singleton.mp hb ▸ ha)

theorem wfMap_nil : WFMap [] :=
  ⟨List.nodup_nil, fun q hq => absurd hq (List.not_mem_nil q)⟩

theorem wfMap_insertReplace {m : DataMap} {k : String} {v : Row}
    (hm : WFMap m) (hv : RowOK k v) : WFMap (insertReplace m k v) := by
  refine ⟨nodup_keys_insertReplace v hm.1, fun q hq => ?_⟩
  rcases mem_insertReplace hq with he | h2
  · rw [he]
    exact hv
  · exact hm.2 q h2

theorem wfMap_read_row_step {m : DataMap} (hm : WFMap m) (row : Row) :
    WFMap (read_row_step m row) := by
  simp only [read_row_step]
  split_ifs with h1 h2
  · exact wfMap_insertReplace hm ⟨h1, rfl, h2.1, h2.2.1, h2.2.2⟩
  · exact hm
  · exact hm

theorem wfMap_foldl_read (rows : List Row) (m : DataMap) (hm : WFMap m) :
    WFMap (rows.foldl read_row_step m) := by
  induction rows generalizing m with
  | nil => exact hm
  | cons r rest ih => exact ih _ (wfMap_read_row_step hm r)

theorem wfMap_read_csv_data (store : Option CsvFile) : WFMap (read_csv_data store) := by
  match store with
  | none => exact wfMap_nil
  | some [] => exact wfMap_nil
  | some (header :: rows) =>
    simp only [read_csv_data]
    split_ifs with h
    · exact wfMap_foldl_read rows [] wfMap_nil
    · exact wfMap_nil

theorem wfMap_upsert_item_step (ts : String) {m : DataMap} (hm : WFMap m)
    (item : ExtractedItem) : WFMap (upsert_item_step ts m item) := by
  simp only [upsert_item_step]
  split_ifs with h
  · exact hm
  · push_neg at h
    refine wfMap_insertReplace hm ⟨?_, ?_, h.1, h.2.1, h.2.2⟩
    · simp
    · exact pyStrip_idem item.item_name

theorem wfMap_foldl_upsert (ts : String) (items : List ExtractedItem)
    (m : DataMap) (hm : WFMap m) : WFMap (items.foldl (upsert_item_step ts) m) := by
  induction items generalizing m with
  | nil => exact hm
  | cons it rest ih => exact ih _ (wfMap_upsert_item_step ts hm it)

/-! ## Lemmas about sorting -/

theorem perm_insertSorted (q : String × Row) (m : DataMap) :
    List.Perm (insertSorted q m) (q :: m) := by
  induction m with
  | nil => exact List.Perm.refl _
  | cons p rest ih =>
    simp only [insertSorted]
    split_ifs with h
    · exact List.Perm.refl _
    · exact (List.Perm.cons p ih).trans (List.Perm.swap q p rest)

theorem perm_sortByKey (m : DataMap) : List.Perm (sortByKey m) m := by
  induction m with
  | nil => exact List.Perm.refl _
  | cons p rest ih =>
    exact (perm_insertSorted p (sortByKey rest)).trans (List.Perm.cons p ih)

theorem pairwise_insertSorted {q : String × Row} {m : DataMap}
    (h : m.Pairwise (fun a b => a.1 ≤ b.1)) :
    (insertSorted q m).Pairwise (fun a b => a.1 ≤ b.1) := by
  induction m with
  | nil => simp [insertSorted]
  | cons p rest ih =>
    simp only [insertSorted]
    rw [List.pairwise_cons] at h
    split_ifs with hq
    · rw [List.pairwise_cons]
      refine ⟨?_, List.pairwise_cons.mpr h⟩
      intro x hx
      rcases List.mem_cons.mp hx with rfl | hx2
      · exact hq
      · exact le_trans hq (h.1 x hx2)
    · rw [List.pairwise_cons]
      refine ⟨?_, ih h.2⟩
      intro x hx
      rcases List.mem_cons.mp ((perm_insertSorted q rest).mem_iff.mp hx) with rfl | hx2
      · exact le_of_not_le hq
      · exact h.1 x hx2

theorem pairwise_sortByKey (m : DataMap) :
    (sortByKey m).Pairwise (fun a b => a.1 ≤ b.1) := by
  induction m with
  | nil => exact List.Pairwise.nil
  | cons p rest ih => exact pairwise_insertSorted ih

theorem wfMap_sortByKey {m : DataMap} (hm : WFMap m) : WFMap (sortByKey m) := by
  refine ⟨?_, fun q hq => hm.2 q ((perm_sortByKey m).mem_iff.mp hq)⟩
  have h1 : (List.map (fun p : String × Row => p.1) m).Nodup := hm.1
  exact ((perm_sortByKey m).map (fun p : String × Row => p.1)).nodup_iff.mpr h1

/-! ## The written rows determine the mapping -/

theorem filter_values_eq_singleton {m : DataMap} {k : String} {v : Row}
    (hnd : (keys m).Nodup) (hmem : (k, v) ∈ m)
    (hkeys : ∀ q ∈ m, pyStrip (q.2.getD 1 "") = q.1) :
    (m.map (fun p => p.2)).filter (fun r => pyStrip (r.getD 1 "") == k) = [v] := by
  induction m with
  | nil => cases hmem
  | cons p rest ih =>
    rw [keys_cons, List.nodup_cons] at hnd
    rcases List.mem_cons.mp hmem with heq | hmem2
    · have hp1 : p.1 = k := by rw [← heq]
      have hp2 : p.2 = v := by rw [← heq]
      have hk : (pyStrip (p.2.getD 1 "") == k) = true := by
        rw [hkeys p (List.mem_cons_self p rest), hp1]
        exact beq_self_eq_true k
      rw [List.map_cons, @List.filter_cons_of_pos Row
        (fun r => pyStrip (r.getD 1 "") == k) p.2 (List.map (fun p => p.2) rest) hk]
      have hrest : (rest.map (fun p => p.2)).filter
          (fun r => pyStrip (r.getD 1 "") == k) = [] := by
        rw [List.filter_eq_nil_iff]
        intro r hr hpred
        obtain ⟨q, hq, rfl⟩ := List.mem_map.mp hr
        rw [hkeys q (List.mem_cons_of_mem _ hq)] at hpred
        have hqk : q.1 = k := by simpa using hpred
        refine hnd.1 ?_
        rw [hp1, ← hqk]
        exact mem_keys_of_mem hq
      rw [hrest, hp2]
    · have hq1 : p.1 ≠ k := by
        intro he
        exact hnd.1 (by rw [he]; exact mem_keys_of_mem hmem2)
      have hcond : ¬ ((pyStrip (p.2.getD 1 "") == k) = true) := by
        rw [hkeys p (List.mem_cons_self p rest)]
        simp [hq1]
      rw [List.map_cons, @List.filter_cons_of_neg Row
        (fun r => pyStrip (r.getD 1 "") == k) p.2 (List.map (fun p => p.2) rest) hcond]
      exact ih hnd.2 hmem2 (fun q hq => hkeys q (List.mem_cons_of_mem _ hq))

theorem foldl_read_row_step_of_wf (m : DataMap) (acc : DataMap)
    (hrows : ∀ q ∈ m, RowOK q.1 q.2)
    (hnd : (keys acc ++ keys m).Nodup) :
    (m.map (fun p => p.2)).foldl read_row_step acc = acc ++ m := by
  induction m generalizing acc with
  | nil => simp
  | cons p rest ih =>
    obtain ⟨k, v⟩ := p
    simp only [List.map_cons, List.foldl_cons]
    have hok : RowOK k v := hrows (k, v) (List.mem_cons_self _ _)
    have hknotin : k ∉ keys acc := by
      rw [keys_cons] at hnd
      intro hk
      exact List.disjoint_of_nodup_append hnd hk (List.mem_cons_self _ _)
    have hstep : read_row_step acc v = acc ++ [(k, v)] := by
      simp only [read_row_step, hok.2.1, if_pos hok.1]
      rw [if_pos ⟨hok.2.2.1, hok.2.2.2.1, hok.2.2.2.2⟩]
      exact insertReplace_of_not_mem v hknotin
    rw [hstep]
    have hnd2 : (keys (acc ++ [(k, v)]) ++ keys rest).Nodup := by
      rw [keys_append]
      simpa [keys, List.append_assoc] using hnd
    rw [ih (acc ++ [(k, v)]) (fun q hq => hrows q (List.mem_cons_of_mem _ hq)) hnd2]
    simp

theorem read_write_roundtrip {m : DataMap} (hm : WFMap m) :
    read_csv_data (some (CSV_HEADER :: m.map (fun p => p.2))) = m := by
  simp only [read_csv_data, if_pos]
  have := foldl_read_row_step_of_wf m [] hm.2 (by simpa [keys] using hm.1)
  simpa using this

/-! ## Unfolding lemmas for `update_inventory_csv` -/

theorem update_inventory_csv_of_ne_nil {items : List ExtractedItem} {ts : String}
    {store : Option CsvFile} (h : items ≠ []) :
    update_inventory_csv items ts store =
      some (CSV_HEADER :: (sortByKey (items.foldl (upsert_item_step ts)
        (read_csv_data (ensure_csv_header store)))).map (fun p => p.2)) := by
  simp only [update_inventory_csv, if_neg h]

theorem upsert_item_step_of_ok {ts : String} {m : DataMap} {item : ExtractedItem}
    (h1 : pyStrip item.item_name ≠ "") (h2 : pyStrip item.item_name ≠ "NONE")
    (h3 : pyStrip item.item_name ≠ "ERROR") :
    upsert_item_step ts m item =
      insertReplace m (pyStrip item.item_name)
        [ts, pyStrip item.item_name, item.available_count.serialize,
         item.required_count.serialize] := by
  simp only [upsert_item_step]
  rw [if_neg]
  push_neg
  exact ⟨h1, h2, h3⟩

/-! ## Further helper lemmas -/

theorem not_space_of_alnum {c : Char} (h : isAlnum c = true) : isSpace c = false := by
  cases hs : isSpace c
  · rfl
  · rw [not_alnum_of_space hs] at h
    cases h

theorem size_of_mem_split {W H : Nat} {t : SubImage}
    (ht : t ∈ split_image_into_subimages W H) :
    t.width = W / 4 ∧ t.height = H / 2 := by
  simp only [split_image_into_subimages, List.mem_flatten, List.mem_map] at ht
  obtain ⟨l, ⟨row, hrow, rfl⟩, ht⟩ := ht
  obtain ⟨col, hcol, rfl⟩ := List.mem_map.mp ht
  exact ⟨rfl, rfl⟩

/-! ## Claim theorems -/

/-- C3, counterexample: for a 3×2 image (width 3 < 4 columns),
`split_image_into_subimages` does not fail with any error — it is total
and returns 8 zero-width tiles.  No `InvalidDimensions` (or any other)
error exists in the function. -/
theorem split_small_image_no_error_cex :
    split_image_into_subimages 3 2 =
      [⟨0, 0, 0, 1⟩, ⟨0, 0, 0, 1⟩, ⟨0, 0, 0, 1⟩, ⟨0, 0, 0, 1⟩,
       ⟨0, 1, 0, 1⟩, ⟨0, 1, 0, 1⟩, ⟨0, 1, 0, 1⟩, ⟨0, 1, 0, 1⟩] := by
  decide

/-- C3, amended: `split_image_into_subimages` never signals an error.
For any input size it returns exactly 4×2 = 8 tiles; when the image is
narrower than the 4 columns the tiles have width 0, and when it is
shorter than the 2 rows they have height 0 (degenerate empty crops
instead of an `InvalidDimensions` failure). -/
theorem split_small_image_degenerate_tiles (W H : Nat) :
    (split_image_into_subimages W H).length = 8 ∧
    (W < 4 → ∀ t ∈ split_image_into_subimages W H, t.width = 0) ∧
    (H < 2 → ∀ t ∈ split_image_into_subimages W H, t.height = 0) := by
  refine ⟨rfl, fun hW t ht => ?_, fun hH t ht => ?_⟩
  · rw [(size_of_mem_split ht).1]
    exact Nat.div_eq_of_lt hW
  · rw [(size_of_mem_split ht).2]
    exact Nat.div_eq_of_lt hH

/-- C3, amended, witness at a concrete undersized image. -/
theorem split_small_image_degenerate_tiles_witness :
    (split_image_into_subimages 3 2).length = 8 ∧
    (∀ t ∈ split_image_into_subimages 3 2, t.width = 0) :=
  ⟨(split_small_image_degenerate_tiles 3 2).1,
   (split_small_image_degenerate_tiles 3 2).2.1 (by decide)⟩

/-- C4: for an image of size W×H with W ≥ 4 and H ≥ 2,
`split_image_into_subimages` returns exactly 2×4 = 8 tiles in row-major
order; the tile at index `r * 4 + c` (row `r`, column `c`) has origin
`(c * (W / 4), r * (H / 2))` and size `(W / 4) × (H / 2)`, so remainder
pixels on the right/bottom edges are dropped. -/
theorem split_grid_row_major (W H : Nat) (hW : 4 ≤ W) (hH : 2 ≤ H) :
    (split_image_into_subimages W H).length = 8 ∧
    (∀ r c : Nat, r < 2 → c < 4 →
      (split_image_into_subimages W H)[r * 4 + c]? =
        some { left := c * (W / 4), top := r * (H / 2),
               width := W / 4, height := H / 2 }) := by
  refine ⟨rfl, fun r c hr hc => ?_⟩
  interval_cases r <;> interval_cases c <;>
    simp [split_image_into_subimages, List.range_succ]

/-- C4, witness at the spec's 1360×300 example image. -/
theorem split_grid_row_major_witness :
    (split_image_into_subimages 1360 300).length = 8 ∧
    (split_image_into_subimages 1360 300)[1 * 4 + 2]? =
      some { left := 2 * (1360 / 4), top := 1 * (300 / 2),
             width := 1360 / 4, height := 300 / 2 } :=
  ⟨(split_grid_row_major 1360 300 (by decide) (by decide)).1,
   (split_grid_row_major 1360 300 (by decide) (by decide)).2 1 2 (by decide) (by decide)⟩

/-- C5: `call_llm_api` yields exactly one `ExtractedItem` per input tile
with output order equal to input order, and for a tile whose call fails
(transport failure, non-success HTTP status, or JSON parse failure) it
substitutes the sentinel record with `item_name = "ERROR"` and both
counts null, while all remaining tiles are still processed. -/
theorem extract_all_per_tile_sentinel (calls : List LlmCallResult) :
    (call_llm_api calls).length = calls.length ∧
    (∀ i : Nat, (call_llm_api calls)[i]? =
      (calls[i]?).map (fun r => match r with
        | .ok item => item
        | .transportFailure => errorFallbackItem
        | .httpErrorStatus => errorFallbackItem
        | .parseFailure => errorFallbackItem)) ∧
    errorFallbackItem.item_name = "ERROR" ∧
    errorFallbackItem.available_count = CountField.null ∧
    errorFallbackItem.required_count = CountField.null := by
  refine ⟨?_, fun i => ?_, rfl, rfl, rfl⟩
  · rw [call_llm_api_eq_map]
    exact List.length_map _ _
  · rw [call_llm_api_eq_map]
    exact List.getElem?_map _ _ _

/-- C6: `image_has_text` is true on a successful detection iff the
detected text, stripped of surrounding whitespace, contains at least one
alphanumeric character (equivalently, iff the raw text does — stripping
only removes whitespace, which is never alphanumeric); it is false when
every character fails `isalnum` (empty or punctuation-only text); and on
an internal failure of the detection pass it returns true (fails open),
so such a tile is forwarded by `pre_screen_subimages` rather than
dropped. -/
theorem has_text_alnum_iff_fails_open :
    (image_has_text none = true) ∧
    (∀ t : List Char, image_has_text (some t) = true ↔
      ∃ c ∈ trimChars t, isAlnum c = true) ∧
    (∀ t : List Char, image_has_text (some t) = true ↔
      ∃ c ∈ t, isAlnum c = true) ∧
    (∀ t : List Char, (∀ c ∈ t, isAlnum c = false) →
      image_has_text (some t) = false) ∧
    (∀ (tiles : List (Nat × Option (List Char))) (img : Nat),
      (img, none) ∈ tiles → img ∈ pre_screen_subimages tiles) := by
  have hiff : ∀ t : List Char, image_has_text (some t) = true ↔
      ∃ c ∈ trimChars t, isAlnum c = true := by
    intro t
    simp [image_has_text, List.any_eq_true]
  have hiff2 : ∀ t : List Char, image_has_text (some t) = true ↔
      ∃ c ∈ t, isAlnum c = true := by
    intro t
    rw [hiff t]
    constructor
    · rintro ⟨c, hc, ha⟩
      exact ⟨c, mem_of_mem_trimChars hc, ha⟩
    · rintro ⟨c, hc, ha⟩
      exact ⟨c, mem_trimChars_of_neg (not_space_of_alnum ha) hc, ha⟩
  refine ⟨rfl, hiff, hiff2, fun t h => ?_, fun tiles img h => ?_⟩
  · rw [Bool.eq_false_iff]
    intro htrue
    obtain ⟨c, hc, ha⟩ := (hiff2 t).mp htrue
    rw [h c hc] at ha
    cases ha
  · exact mem_pre_screen_of_kept tiles img none rfl h

/-- C6, witness: an all-whitespace/punctuation tile is rejected, a tile
with a letter is kept, and a tile whose OCR pass failed is forwarded. -/
theorem has_text_alnum_iff_fails_open_witness :
    image_has_text (some [' ', 'A', ' ']) = true ∧
    image_has_text (some ['.', ' ', ',']) = false ∧
    (5 : Nat) ∈ pre_screen_subimages [(7, some ['.', ' ', ',']), (5, none)] :=
  ⟨(has_text_alnum_iff_fails_open.2.2.1 [' ', 'A', ' ']).mpr ⟨'A', by decide, by decide⟩,
   has_text_alnum_iff_fails_open.2.2.2.1 ['.', ' ', ','] (by decide),
   has_text_alnum_iff_fails_open.2.2.2.2 [(7, some ['.', ' ', ',']), (5, none)] 5
     (by decide)⟩

/-- C10: calling `update_inventory_csv` with an empty item list leaves
the store state exactly as it was (in particular an absent file is not
created) and performs no filesystem operation at all — while any
non-empty batch (even one made only of sentinel items) triggers the full
sequence: ensure (create or read the header line), read the whole file,
and rewrite it, leaving the file existing. -/
theorem empty_upsert_is_noop (items : List ExtractedItem) (ts : String)
    (store : Option CsvFile) :
    (update_inventory_csv [] ts store = store) ∧
    (update_inventory_csv_fsOps [] store = []) ∧
    (items ≠ [] →
      FsOp.readAll ∈ update_inventory_csv_fsOps items store ∧
      FsOp.writeAll ∈ update_inventory_csv_fsOps items store ∧
      ∃ f, update_inventory_csv items ts store = some f) := by
  refine ⟨rfl, rfl, fun h => ?_⟩
  unfold update_inventory_csv_fsOps
  rw [if_neg h]
  refine ⟨?_, ?_, ⟨_, update_inventory_csv_of_ne_nil h⟩⟩
  · cases store <;> simp
  · cases store <;> simp

/-- C10, witness: a batch containing only the `"ERROR"` sentinel still
reads and rewrites an existing store file. -/
theorem empty_upsert_is_noop_witness :
    FsOp.readAll ∈ update_inventory_csv_fsOps [errorFallbackItem] (some [CSV_HEADER]) ∧
    FsOp.writeAll ∈ update_inventory_csv_fsOps [errorFallbackItem] (some [CSV_HEADER]) ∧
    ∃ f, update_inventory_csv [errorFallbackItem] "T" (some [CSV_HEADER]) = some f :=
  (empty_upsert_is_noop [errorFallbackItem] "T" (some [CSV_HEADER])).2.2 (by decide)

/-- C2, counterexample: an item whose `available_count` is present but
null is persisted with the string `"None"` in that column — not with an
empty value as the claim states (`str(None)` is `"None"` in Python; only
a missing key serialises to `""` via the `.get(key, "")` default). -/
theorem null_count_serialized_as_None_cex :
    update_inventory_csv [⟨"Wood", CountField.null, CountField.val 5⟩] "T1" none =
      some [CSV_HEADER, ["T1", "Wood", "None", "5"]] ∧
    ("None" : String) ≠ "" := by
  exact ⟨by decide, by decide⟩

/-- C2, amended: for every persisted incoming item a row
`[timestamp, stripped name, available, required]` is written, where an
absent count serialises to the empty string, a null count to the string
`"None"`, and an integer count to its decimal representation. -/
theorem counts_serialization (item : ExtractedItem) (ts : String)
    (store : Option CsvFile)
    (h1 : pyStrip item.item_name ≠ "") (h2 : pyStrip item.item_name ≠ "NONE")
    (h3 : pyStrip item.item_name ≠ "ERROR") :
    CountField.absent.serialize = "" ∧
    CountField.null.serialize = "None" ∧
    (∀ nv : Int, (CountField.val nv).serialize = toString nv) ∧
    ∃ rows, update_inventory_csv [item] ts store = some (CSV_HEADER :: rows) ∧
      [ts, pyStrip item.item_name, item.available_count.serialize,
       item.required_count.serialize] ∈ rows := by
  refine ⟨rfl, rfl, fun nv => rfl, ?_⟩
  have hne : ([item] : List ExtractedItem) ≠ [] := by simp
  refine ⟨_, update_inventory_csv_of_ne_nil hne, ?_⟩
  have hfold : [item].foldl (upsert_item_step ts)
      (read_csv_data (ensure_csv_header store)) =
      insertReplace (read_csv_data (ensure_csv_header store)) (pyStrip item.item_name)
        [ts, pyStrip item.item_name, item.available_count.serialize,
         item.required_count.serialize] := by
    simp only [List.foldl_cons, List.foldl_nil]
    exact upsert_item_step_of_ok h1 h2 h3
  rw [hfold]
  exact List.mem_map_of_mem (fun p => p.2)
    ((perm_sortByKey _).mem_iff.mpr (mem_insertReplace_self _ _ _))

/-- C2, amended, witness: an item named `" Wood "` with a missing
available count and a null required count. -/
theorem counts_serialization_witness :
    ∃ rows, update_inventory_csv [⟨" Wood ", CountField.absent, CountField.null⟩]
        "T1" none = some (CSV_HEADER :: rows) ∧
      ["T1", pyStrip " Wood ", CountField.absent.serialize,
       CountField.null.serialize] ∈ rows :=
  (counts_serialization ⟨" Wood ", CountField.absent, CountField.null⟩ "T1" none
    (by decide) (by decide) (by decide)).2.2.2

/-- C1, counterexample: the store file has the non-canonical header
`["legacy"]` and an existing `Wood` row.  The claim says the `Wood` row
is loaded and retained through the rewrite; in fact `read_csv_data`
returns an empty mapping for the mismatched header, so the rewrite
discards the `Wood` row (and writes the canonical header). -/
theorem mismatched_header_drops_rows_cex :
    update_inventory_csv [⟨"Stone", CountField.val 5, CountField.val 7⟩] "T2"
      (some [["legacy"], ["T0", "Wood", "1", "2"]]) =
      some [CSV_HEADER, ["T2", "Stone", "5", "7"]] := by
  decide

/-- C1, amended: when the store file exists with a header different from
the canonical one, `ensure_csv_header` leaves the file unmodified (it
only warns), but `read_csv_data` then returns an empty mapping, so the
rows already in the file are NOT retained: a non-empty upsert rewrites
the file as the canonical header followed by only the incoming batch's
records. -/
theorem mismatched_header_keeps_file_but_drops_rows
    (hdr : Row) (rest : CsvFile) (items : List ExtractedItem) (ts : String)
    (hhdr : hdr ≠ CSV_HEADER) (hitems : items ≠ []) :
    ensure_csv_header (some (hdr :: rest)) = some (hdr :: rest) ∧
    read_csv_data (some (hdr :: rest)) = [] ∧
    update_inventory_csv items ts (some (hdr :: rest)) =
      some (CSV_HEADER ::
        (sortByKey (items.foldl (upsert_item_step ts) [])).map (fun p => p.2)) := by
  have hread : read_csv_data (some (hdr :: rest)) = [] := by
    simp only [read_csv_data, if_neg hhdr]
  refine ⟨rfl, hread, ?_⟩
  rw [update_inventory_csv_of_ne_nil hitems]
  simp only [ensure_csv_header, hread]

/-- C1, amended, witness at the counterexample's store file. -/
theorem mismatched_header_keeps_file_but_drops_rows_witness :
    ensure_csv_header (some [["legacy"], ["T0", "Wood", "1", "2"]]) =
      some [["legacy"], ["T0", "Wood", "1", "2"]] ∧
    read_csv_data (some [["legacy"], ["T0", "Wood", "1", "2"]]) = [] ∧
    update_inventory_csv [⟨"Stone", CountField.val 5, CountField.val 7⟩] "T2"
      (some [["legacy"], ["T0", "Wood", "1", "2"]]) =
      some (CSV_HEADER ::
        (sortByKey ([⟨"Stone", CountField.val 5, CountField.val 7⟩].foldl
          (upsert_item_step "T2") [])).map (fun p => p.2)) :=
  mismatched_header_keeps_file_but_drops_rows ["legacy"] [["T0", "Wood", "1", "2"]]
    [⟨"Stone", CountField.val 5, CountField.val 7⟩] "T2" (by decide) (by decide)

/-- C7: sentinel-named items never reach the persisted table.  Loading
any store state through `read_csv_data` yields only bindings whose name
is neither empty, `"NONE"` nor `"ERROR"`; and after any non-empty
`update_inventory_csv` every persisted data row has a stripped name that
is neither empty, `"NONE"` nor `"ERROR"` — so such items are skipped on
write and filtered on read, however often they are submitted. -/
theorem sentinel_names_never_persisted (items : List ExtractedItem) (ts : String)
    (store : Option CsvFile) :
    (∀ q ∈ read_csv_data store, q.1 ≠ "" ∧ q.1 ≠ "NONE" ∧ q.1 ≠ "ERROR") ∧
    (items ≠ [] →
      ∃ rows, update_inventory_csv items ts store = some (CSV_HEADER :: rows) ∧
        ∀ r ∈ rows, pyStrip (r.getD 1 "") ≠ "" ∧
          pyStrip (r.getD 1 "") ≠ "NONE" ∧ pyStrip (r.getD 1 "") ≠ "ERROR") := by
  constructor
  · intro q hq
    have hok := (wfMap_read_csv_data store).2 q hq
    exact ⟨hok.2.2.1, hok.2.2.2.1, hok.2.2.2.2⟩
  · intro h
    refine ⟨_, update_inventory_csv_of_ne_nil h, ?_⟩
    intro r hr
    have hwf : WFMap (sortByKey (items.foldl (upsert_item_step ts)
        (read_csv_data (ensure_csv_header store)))) :=
      wfMap_sortByKey (wfMap_foldl_upsert ts items _
        (wfMap_read_csv_data (ensure_csv_header store)))
    obtain ⟨q, hq, rfl⟩ := List.mem_map.mp hr
    have hok := hwf.2 q hq
    rw [hok.2.1]
    exact ⟨hok.2.2.1, hok.2.2.2.1, hok.2.2.2.2⟩

/-- C7, witness: a batch of one `"NONE"` item and one `"Wood"` item on a
fresh store. -/
theorem sentinel_names_never_persisted_witness :
    ∃ rows, update_inventory_csv
        [⟨"NONE", CountField.null, CountField.null⟩,
         ⟨"Wood", CountField.val 1, CountField.val 2⟩] "T" none =
        some (CSV_HEADER :: rows) ∧
      ∀ r ∈ rows, pyStrip (r.getD 1 "") ≠ "" ∧
        pyStrip (r.getD 1 "") ≠ "NONE" ∧ pyStrip (r.getD 1 "") ≠ "ERROR" :=
  (sentinel_names_never_persisted
    [⟨"NONE", CountField.null, CountField.null⟩,
     ⟨"Wood", CountField.val 1, CountField.val 2⟩] "T" none).2 (by decide)

/-- C8: every completed non-empty `update_inventory_csv` leaves the file
as the canonical header row followed by data rows strictly increasing in
(stripped) item name — hence sorted ascending by `item_name` with no
duplicate names. -/
theorem upsert_output_sorted_unique (items : List ExtractedItem) (ts : String)
    (store : Option CsvFile) (h : items ≠ []) :
    ∃ rows, update_inventory_csv items ts store = some (CSV_HEADER :: rows) ∧
      (rows.map (fun r => pyStrip (r.getD 1 ""))).Pairwise (fun a b => a < b) := by
  refine ⟨_, update_inventory_csv_of_ne_nil h, ?_⟩
  have hwf : WFMap (sortByKey (items.foldl (upsert_item_step ts)
      (read_csv_data (ensure_csv_header store)))) :=
    wfMap_sortByKey (wfMap_foldl_upsert ts items _
      (wfMap_read_csv_data (ensure_csv_header store)))
  rw [List.map_map]
  have hnames : (sortByKey (items.foldl (upsert_item_step ts)
        (read_csv_data (ensure_csv_header store)))).map
        ((fun r => pyStrip (r.getD 1 "")) ∘ (fun p => p.2)) =
      (sortByKey (items.foldl (upsert_item_step ts)
        (read_csv_data (ensure_csv_header store)))).map (fun p : String × Row => p.1) := by
    apply List.map_congr_left
    intro q hq
    exact (hwf.2 q hq).2.1
  rw [hnames]
  have hle := pairwise_sortByKey (items.foldl (upsert_item_step ts)
    (read_csv_data (ensure_csv_header store)))
  have hne : (sortByKey (items.foldl (upsert_item_step ts)
      (read_csv_data (ensure_csv_header store)))).Pairwise
      (fun a b : String × Row => a.1 ≠ b.1) := by
    have hnd : ((sortByKey (items.foldl (upsert_item_step ts)
        (read_csv_data (ensure_csv_header store)))).map
        (fun p : String × Row => p.1)).Nodup := hwf.1
    exact List.pairwise_map.mp hnd
  have hlt := (hle.and hne).imp
    (fun hab => lt_of_le_of_ne hab.1 hab.2)
  exact List.pairwise_map.mpr hlt

/-- C8, witness: an unsorted two-item batch on a fresh store. -/
theorem upsert_output_sorted_unique_witness :
    ∃ rows, update_inventory_csv
        [⟨"Wood", CountField.val 1, CountField.val 2⟩,
         ⟨"Stone", CountField.val 3, CountField.val 4⟩] "T" none =
        some (CSV_HEADER :: rows) ∧
      (rows.map (fun r => pyStrip (r.getD 1 ""))).Pairwise (fun a b => a < b) :=
  upsert_output_sorted_unique
    [⟨"Wood", CountField.val 1, CountField.val 2⟩,
     ⟨"Stone", CountField.val 3, CountField.val 4⟩] "T" none (by decide)

/-- C9: upserting the same item name twice, in two successive calls with
timestamps `t1 < t2` (later wall-clock times yield lexicographically
larger ISO timestamps) and different counts, leaves exactly one data row
for that name, carrying the second call's counts and timestamp `t2`,
strictly newer than the replaced row's timestamp `t1`; the total number
of data rows does not grow on the second upsert. -/
theorem upsert_twice_last_write_wins
    (n t1 t2 : String) (a1 r1 a2 r2 : CountField) (store : Option CsvFile)
    (hk1 : pyStrip n ≠ "") (hk2 : pyStrip n ≠ "NONE") (hk3 : pyStrip n ≠ "ERROR")
    (ht : t1 < t2) (hcounts : (a1, r1) ≠ (a2, r2)) :
    ∃ rows1 rows2,
      update_inventory_csv [⟨n, a1, r1⟩] t1 store = some (CSV_HEADER :: rows1) ∧
      update_inventory_csv [⟨n, a2, r2⟩] t2
        (update_inventory_csv [⟨n, a1, r1⟩] t1 store) = some (CSV_HEADER :: rows2) ∧
      rows1.filter (fun r => pyStrip (r.getD 1 "") == pyStrip n) =
        [[t1, pyStrip n, a1.serialize, r1.serialize]] ∧
      rows2.filter (fun r => pyStrip (r.getD 1 "") == pyStrip n) =
        [[t2, pyStrip n, a2.serialize, r2.serialize]] ∧
      rows2.length = rows1.length ∧
      t1 < t2 := by
  obtain ⟨m0, hm0⟩ : ∃ m, read_csv_data (ensure_csv_header store) = m := ⟨_, rfl⟩
  have hwf0 : WFMap m0 := hm0 ▸ wfMap_read_csv_data (ensure_csv_header store)
  have hrow1 : RowOK (pyStrip n) [t1, pyStrip n, a1.serialize, r1.serialize] :=
    ⟨by simp, pyStrip_idem n, hk1, hk2, hk3⟩
  have hrow2 : RowOK (pyStrip n) [t2, pyStrip n, a2.serialize, r2.serialize] :=
    ⟨by simp, pyStrip_idem n, hk1, hk2, hk3⟩
  have hfold1 : [(⟨n, a1, r1⟩ : ExtractedItem)].foldl (upsert_item_step t1) m0 =
      insertReplace m0 (pyStrip n) [t1, pyStrip n, a1.serialize, r1.serialize] := by
    simp only [List.foldl_cons, List.foldl_nil]
    exact upsert_item_step_of_ok hk1 hk2 hk3
  have heq1 : update_inventory_csv [⟨n, a1, r1⟩] t1 store =
      some (CSV_HEADER :: (sortByKey (insertReplace m0 (pyStrip n)
        [t1, pyStrip n, a1.serialize, r1.serialize])).map (fun p => p.2)) := by
    rw [update_inventory_csv_of_ne_nil (List.cons_ne_nil _ _), hm0, hfold1]
  obtain ⟨m1, hm1⟩ : ∃ m, sortByKey (insertReplace m0 (pyStrip n)
      [t1, pyStrip n, a1.serialize, r1.serialize]) = m := ⟨_, rfl⟩
  rw [hm1] at heq1
  have hwf1 : WFMap m1 := hm1 ▸ wfMap_sortByKey (wfMap_insertReplace hwf0 hrow1)
  have hmem1 : (pyStrip n, [t1, pyStrip n, a1.serialize, r1.serialize]) ∈ m1 := by
    rw [← hm1]
    exact (perm_sortByKey _).mem_iff.mpr (mem_insertReplace_self _ _ _)
  have hread2 : read_csv_data (ensure_csv_header
      (some (CSV_HEADER :: m1.map (fun p => p.2)))) = m1 := by
    simp only [ensure_csv_header]
    exact read_write_roundtrip hwf1
  have hfold2 : [(⟨n, a2, r2⟩ : ExtractedItem)].foldl (upsert_item_step t2) m1 =
      insertReplace m1 (pyStrip n) [t2, pyStrip n, a2.serialize, r2.serialize] := by
    simp only [List.foldl_cons, List.foldl_nil]
    exact upsert_item_step_of_ok hk1 hk2 hk3
  have heq2 : update_inventory_csv [⟨n, a2, r2⟩] t2
      (some (CSV_HEADER :: m1.map (fun p => p.2))) =
      some (CSV_HEADER :: (sortByKey (insertReplace m1 (pyStrip n)
        [t2, pyStrip n, a2.serialize, r2.serialize])).map (fun p => p.2)) := by
    rw [update_inventory_csv_of_ne_nil (List.cons_ne_nil _ _), hread2, hfold2]
  obtain ⟨m2, hm2⟩ : ∃ m, sortByKey (insertReplace m1 (pyStrip n)
      [t2, pyStrip n, a2.serialize, r2.serialize]) = m := ⟨_, rfl⟩
  rw [hm2] at heq2
  have hwf2 : WFMap m2 := hm2 ▸ wfMap_sortByKey (wfMap_insertReplace hwf1 hrow2)
  have hmem2 : (pyStrip n, [t2, pyStrip n, a2.serialize, r2.serialize]) ∈ m2 := by
    rw [← hm2]
    exact (perm_sortByKey _).mem_iff.mpr (mem_insertReplace_self _ _ _)
  refine ⟨m1.map (fun p => p.2), m2.map (fun p => p.2), heq1, ?_, ?_, ?_, ?_, ht⟩
  · rw [heq1]
    exact heq2
  · exact filter_values_eq_singleton hwf1.1 hmem1 (fun q hq => (hwf1.2 q hq).2.1)
  · exact filter_values_eq_singleton hwf2.1 hmem2 (fun q hq => (hwf2.2 q hq).2.1)
  · rw [List.length_map, List.length_map, ← hm2,
      (perm_sortByKey (insertReplace m1 (pyStrip n)
        [t2, pyStrip n, a2.serialize, r2.serialize])).length_eq]
    exact length_insertReplace_of_mem _ (mem_keys_of_mem hmem1)

/-- C9, witness: the spec's `Wood` example — stale counts replaced by the
later batch at a newer timestamp, on a fresh store. -/
theorem upsert_twice_last_write_wins_witness :
    ∃ rows1 rows2,
      update_inventory_csv [⟨"Wood", CountField.val 1, CountField.val 2⟩]
        "2024-01-01T00:00:00" none = some (CSV_HEADER :: rows1) ∧
      update_inventory_csv [⟨"Wood", CountField.val 50, CountField.val 10⟩]
        "2024-01-02T00:00:00"
        (update_inventory_csv [⟨"Wood", CountField.val 1, CountField.val 2⟩]
          "2024-01-01T00:00:00" none) = some (CSV_HEADER :: rows2) ∧
      rows1.filter (fun r => pyStrip (r.getD 1 "") == pyStrip "Wood") =
        [["2024-01-01T00:00:00", pyStrip "Wood",
          (CountField.val 1).serialize, (CountField.val 2).serialize]] ∧
      rows2.filter (fun r => pyStrip (r.getD 1 "") == pyStrip "Wood") =
        [["2024-01-02T00:00:00", pyStrip "Wood",
          (CountField.val 50).serialize, (CountField.val 10).serialize]] ∧
      rows2.length = rows1.length ∧
      ("2024-01-01T00:00:00" : String) < "2024-01-02T00:00:00" :=
  upsert_twice_last_write_wins "Wood" "2024-01-01T00:00:00" "2024-01-02T00:00:00"
    (CountField.val 1) (CountField.val 2) (CountField.val 50) (CountField.val 10)
    none (by decide) (by decide) (by decide)
    (by rw [String.lt_iff_toList_lt]; decide) (by decide)
